import Mathlib

/-!
Verification development for the OpenMX post-processing core in
openmx.c: the reciprocal-space long-range potential solver
(Calc_Vlr), the partition-B to partition-C grid redistribution
(Data_Grid_Copy_B2C_XiwenLi), and the threaded real-space quadrature
engine (Set_Hlr / Calc_MatrixElements_Vlr).

The C code is embedded shallowly: global arrays become functions out
of natural-number indices, double-precision values become elements of
an abstract ordered field or commutative ring, transcendental
functions become abstract function parameters, and the MPI exchange
becomes explicit buffer-passing with an arrival-order parameter.
-/

namespace OpenMX

/-! ## Quadrature engine: Set_Hlr / Calc_MatrixElements_Vlr -/

/-- Read-only context of the quadrature engine: geometry, neighbor
lists and ownership tables consumed by Calc_MatrixElements_Vlr. -/
structure QuadCtx (F : Type) where
  Matomnum : ℕ
  M2G : ℕ → ℕ
  FNAN : ℕ → ℕ
  natn : ℕ → ℕ → ℕ
  F_G2M : ℕ → ℕ
  WhatSpecies : ℕ → ℕ
  Spe_Total_NO : ℕ → ℕ
  NumOLG : ℕ → ℕ → ℕ
  GListTAtoms1 : ℕ → ℕ → ℕ → ℕ
  GListTAtoms2 : ℕ → ℕ → ℕ → ℕ
  MGridListAtom : ℕ → ℕ → ℕ
  GridVol : F
  G2ID : ℕ → ℕ
  myid : ℕ

/-- Mutable state touched by the quadrature engine: the per-source
matrix blocks Hlr, the partition-C potential field Vlr_Grid, the local
orbital values Orbs_Grid and the halo orbital values Orbs_Grid_FNAN. -/
structure QuadState (F : Type) where
  Hlr : ℕ → ℕ → ℕ → ℕ → ℕ → F
  Vlr_Grid : ℕ → ℕ → F
  Orbs_Grid : ℕ → ℕ → ℕ → F
  Orbs_Grid_FNAN : ℕ → ℕ → ℕ → ℕ → F

variable {F : Type} [CommRing F]

/-- Basis size NO0 of the owning atom of task (Mc_AN, h_AN):
Spe_Total_NO[WhatSpecies[M2G[Mc_AN]]]. -/
def NO0 (c : QuadCtx F) (Mc : ℕ) : ℕ :=
  c.Spe_Total_NO (c.WhatSpecies (c.M2G Mc))

/-- Basis size NO1 of the neighbor atom of task (Mc_AN, h_AN):
Spe_Total_NO[WhatSpecies[natn[M2G[Mc_AN]][h_AN]]]. -/
def NO1 (c : QuadCtx F) (Mc h : ℕ) : ℕ :=
  c.Spe_Total_NO (c.WhatSpecies (c.natn (c.M2G Mc) h))

/-- One summand of the quadrature of Calc_MatrixElements_Vlr at grid
slot Nog of task (Mc_AN, h_AN): GridVol * Vlr_Grid[idx_P][MN] times
the owner orbital value and the neighbor orbital value, the latter
taken from Orbs_Grid when G2ID[Gh_AN] == myid and from Orbs_Grid_FNAN
otherwise. -/
def quadTerm (c : QuadCtx F) (st : QuadState F) (idx_P Mc h Nog i j : ℕ) : F :=
  let Gc := c.M2G Mc
  let Gh := c.natn Gc h
  let Nc := c.GListTAtoms1 Mc h Nog
  let MN := c.MGridListAtom Mc Nc
  let Nh := c.GListTAtoms2 Mc h Nog
  let w := c.GridVol * st.Vlr_Grid idx_P MN
  if c.G2ID Gh = c.myid then
    w * st.Orbs_Grid Mc Nc i * st.Orbs_Grid (c.F_G2M Gh) Nh j
  else
    w * st.Orbs_Grid Mc Nc i * st.Orbs_Grid_FNAN Mc h Nog j

/-- The full quadrature contribution of task (Mc_AN, h_AN) to entry
(i, j): the sum over the NOLG = NumOLG[Mc_AN][h_AN] shared grid
points. -/
def taskQuadSum (c : QuadCtx F) (st : QuadState F) (idx_P Mc h i j : ℕ) : F :=
  ∑ Nog ∈ Finset.range (c.NumOLG Mc h), quadTerm c st idx_P Mc h Nog i j

/-- One task of the parallel loop body: seed the scratch block from
Hlr[idx_P][Mc_AN][h_AN], accumulate the quadrature over the shared
grid points, and write the scratch block back. -/
def writeTask (c : QuadCtx F) (idx_P : ℕ) (st : QuadState F) (Mc h : ℕ) :
    QuadState F :=
  { st with
    Hlr := fun q M k i j =>
      if q = idx_P ∧ M = Mc ∧ k = h ∧ i < NO0 c Mc ∧ j < NO1 c Mc h then
        st.Hlr q M k i j + taskQuadSum c st idx_P Mc h i j
      else
        st.Hlr q M k i j }

/-- One-dimensionalized task list, parameterized by the number of
locally owned atoms and the per-atom neighbor count. -/
def oneDListAux (Mat : ℕ) (fn : ℕ → ℕ) : List (ℕ × ℕ) :=
  (List.range Mat).flatMap fun m =>
    (List.range (fn (m + 1) + 1)).map fun h => (m + 1, h)

/-- The one-dimensionalized task list (OneD2Mc_AN, OneD2h_AN) built at
the top of Calc_MatrixElements_Vlr: Mc_AN runs over 1..Matomnum, and
h_AN over 0..FNAN[M2G[Mc_AN]]. -/
def oneDList (c : QuadCtx F) : List (ℕ × ℕ) :=
  oneDListAux c.Matomnum fun a => c.FNAN (c.M2G a)

/-- Calc_MatrixElements_Vlr(idx_P): run every task of the
one-dimensionalized list. -/
def Calc_MatrixElements_Vlr (c : QuadCtx F) (idx_P : ℕ) (st : QuadState F) :
    QuadState F :=
  (oneDList c).foldl (fun s p => writeTask c idx_P s p.1 p.2) st

/-- Set_Hlr: call Calc_MatrixElements_Vlr(Mc_AN) for every locally
owned atom Mc_AN = 1..Matomnum. -/
def Set_Hlr (c : QuadCtx F) (st : QuadState F) : QuadState F :=
  (List.range c.Matomnum).foldl
    (fun s m => Calc_MatrixElements_Vlr c (m + 1) s) st

lemma writeTask_Vlr_Grid (c : QuadCtx F) (idx_P : ℕ) (st : QuadState F)
    (Mc h : ℕ) : (writeTask c idx_P st Mc h).Vlr_Grid = st.Vlr_Grid := rfl

lemma writeTask_Orbs_Grid (c : QuadCtx F) (idx_P : ℕ) (st : QuadState F)
    (Mc h : ℕ) : (writeTask c idx_P st Mc h).Orbs_Grid = st.Orbs_Grid := rfl

lemma writeTask_Orbs_Grid_FNAN (c : QuadCtx F) (idx_P : ℕ) (st : QuadState F)
    (Mc h : ℕ) :
    (writeTask c idx_P st Mc h).Orbs_Grid_FNAN = st.Orbs_Grid_FNAN := rfl

lemma taskQuadSum_writeTask (c : QuadCtx F) (idx_P idx' : ℕ) (st : QuadState F)
    (Mc' h' Mc h i j : ℕ) :
    taskQuadSum c (writeTask c idx' st Mc' h') idx_P Mc h i j =
      taskQuadSum c st idx_P Mc h i j := rfl

/-- Value of a block entry after folding an arbitrary task list:
the old entry plus (number of occurrences of the task) times the
quadrature sum, provided the source index and basis bounds match. -/
lemma foldl_writeTask_Hlr (c : QuadCtx F) (idx_P : ℕ) (l : List (ℕ × ℕ))
    (st : QuadState F) (q M k i j : ℕ) :
    ((l.foldl (fun s p => writeTask c idx_P s p.1 p.2) st).Hlr q M k i j) =
      st.Hlr q M k i j +
        (if q = idx_P ∧ i < NO0 c M ∧ j < NO1 c M k then
          (l.count (M, k) : F) * taskQuadSum c st idx_P M k i j
        else 0) := by
  induction l generalizing st with
  | nil => simp
  | cons hd t ih =>
    obtain ⟨a, b⟩ := hd
    simp only [List.foldl_cons]
    rw [ih]
    have hcount : ((a, b) :: t).count (M, k) =
        t.count (M, k) + (if M = a ∧ k = b then 1 else 0) := by
      rw [List.count_cons]
      by_cases hab : M = a ∧ k = b
      · obtain ⟨h1, h2⟩ := hab
        subst h1
        subst h2
        simp
      · have hne : ((M, k) : ℕ × ℕ) ≠ (a, b) := by
          intro hcon
          exact hab ⟨congrArg Prod.fst hcon, congrArg Prod.snd hcon⟩
        simp [hab, hne, Ne.symm hne]
    have hterm : (writeTask c idx_P st a b).Hlr q M k i j =
        st.Hlr q M k i j +
          (if q = idx_P ∧ M = a ∧ k = b ∧ i < NO0 c a ∧ j < NO1 c a b then
            taskQuadSum c st idx_P a b i j
          else 0) := by
      simp only [writeTask]
      by_cases hc : q = idx_P ∧ M = a ∧ k = b ∧ i < NO0 c a ∧ j < NO1 c a b
      · rw [if_pos hc, if_pos hc]
      · rw [if_neg hc, if_neg hc, add_zero]
    rw [taskQuadSum_writeTask, hterm, hcount]
    by_cases hMk : M = a ∧ k = b
    · obtain ⟨hM, hk⟩ := hMk
      subst hM
      subst hk
      simp only [eq_self_iff_true, true_and, and_true, and_self, if_true]
      split_ifs with hD
      · push_cast
        ring
      · simp
    · have hA : ¬(q = idx_P ∧ M = a ∧ k = b ∧ i < NO0 c a ∧ j < NO1 c a b) :=
        fun hcon => hMk ⟨hcon.2.1, hcon.2.2.1⟩
      rw [if_neg hA, if_neg hMk]
      simp

lemma Calc_MatrixElements_Vlr_Hlr (c : QuadCtx F) (idx_P : ℕ)
    (st : QuadState F) (q M k i j : ℕ) :
    (Calc_MatrixElements_Vlr c idx_P st).Hlr q M k i j =
      st.Hlr q M k i j +
        (if q = idx_P ∧ i < NO0 c M ∧ j < NO1 c M k then
          ((oneDList c).count (M, k) : F) * taskQuadSum c st idx_P M k i j
        else 0) :=
  foldl_writeTask_Hlr c idx_P (oneDList c) st q M k i j

lemma foldl_writeTask_rest (c : QuadCtx F) (idx_P : ℕ) (l : List (ℕ × ℕ))
    (st : QuadState F) :
    (l.foldl (fun s p => writeTask c idx_P s p.1 p.2) st).Vlr_Grid =
        st.Vlr_Grid ∧
      (l.foldl (fun s p => writeTask c idx_P s p.1 p.2) st).Orbs_Grid =
        st.Orbs_Grid ∧
      (l.foldl (fun s p => writeTask c idx_P s p.1 p.2) st).Orbs_Grid_FNAN =
        st.Orbs_Grid_FNAN := by
  induction l generalizing st with
  | nil => exact ⟨rfl, rfl, rfl⟩
  | cons hd t ih => exact ih (writeTask c idx_P st hd.1 hd.2)

lemma Calc_MatrixElements_Vlr_Vlr_Grid (c : QuadCtx F) (idx_P : ℕ)
    (st : QuadState F) :
    (Calc_MatrixElements_Vlr c idx_P st).Vlr_Grid = st.Vlr_Grid :=
  (foldl_writeTask_rest c idx_P (oneDList c) st).1

lemma Calc_MatrixElements_Vlr_Orbs (c : QuadCtx F) (idx_P : ℕ)
    (st : QuadState F) :
    (Calc_MatrixElements_Vlr c idx_P st).Orbs_Grid = st.Orbs_Grid :=
  (foldl_writeTask_rest c idx_P (oneDList c) st).2.1

lemma Calc_MatrixElements_Vlr_Orbs_FNAN (c : QuadCtx F) (idx_P : ℕ)
    (st : QuadState F) :
    (Calc_MatrixElements_Vlr c idx_P st).Orbs_Grid_FNAN =
      st.Orbs_Grid_FNAN :=
  (foldl_writeTask_rest c idx_P (oneDList c) st).2.2

lemma taskQuadSum_congr (c : QuadCtx F) (st st' : QuadState F)
    (hV : st.Vlr_Grid = st'.Vlr_Grid) (hO : st.Orbs_Grid = st'.Orbs_Grid)
    (hN : st.Orbs_Grid_FNAN = st'.Orbs_Grid_FNAN) (idx_P Mc h i j : ℕ) :
    taskQuadSum c st idx_P Mc h i j = taskQuadSum c st' idx_P Mc h i j := by
  unfold taskQuadSum quadTerm
  rw [hV, hO, hN]

lemma mem_oneDListAux (Mat : ℕ) (fn : ℕ → ℕ) (Mc h : ℕ) :
    (Mc, h) ∈ oneDListAux Mat fn ↔ 1 ≤ Mc ∧ Mc ≤ Mat ∧ h ≤ fn Mc := by
  unfold oneDListAux
  simp only [List.mem_flatMap, List.mem_map, List.mem_range]
  constructor
  · rintro ⟨m, hm, hh, hhlt, heq⟩
    have h1 : m + 1 = Mc := congrArg Prod.fst heq
    have h2 : hh = h := congrArg Prod.snd heq
    subst h1
    subst h2
    exact ⟨by omega, by omega, by omega⟩
  · rintro ⟨h1, h2, h3⟩
    refine ⟨Mc - 1, by omega, h, ?_, ?_⟩
    · have hMc : Mc - 1 + 1 = Mc := by omega
      rw [hMc]
      omega
    · have hMc : Mc - 1 + 1 = Mc := by omega
      rw [hMc]

lemma nodup_oneDListAux (Mat : ℕ) (fn : ℕ → ℕ) :
    (oneDListAux Mat fn).Nodup := by
  unfold oneDListAux
  rw [List.nodup_flatMap]
  constructor
  · intro m _
    exact (List.nodup_range _).map fun x y hxy => congrArg Prod.snd hxy
  · have hlt : List.Pairwise (· < ·) (List.range Mat) := List.pairwise_lt_range Mat
    refine hlt.imp ?_
    intro m m' hmm x hx hx'
    obtain ⟨u, _, hu⟩ := List.mem_map.mp hx
    obtain ⟨u', _, hu'⟩ := List.mem_map.mp hx'
    have h1 : m + 1 = x.1 := congrArg Prod.fst hu
    have h2 : m' + 1 = x.1 := congrArg Prod.fst hu'
    omega

lemma count_eq_one_of_nodup_mem {α : Type} [BEq α] [LawfulBEq α]
    {l : List α} {a : α} (hn : l.Nodup) (ha : a ∈ l) : l.count a = 1 := by
  induction l with
  | nil => cases ha
  | cons b t ih =>
    rw [List.count_cons]
    rcases List.mem_cons.mp ha with h | h
    · subst h
      rw [List.count_eq_zero_of_not_mem (List.nodup_cons.mp hn).1]
      simp
    · rw [ih (List.nodup_cons.mp hn).2 h]
      have hne : a ≠ b := fun hc => (List.nodup_cons.mp hn).1 (hc ▸ h)
      simp [hne, Ne.symm hne]

lemma count_oneDListAux (Mat : ℕ) (fn : ℕ → ℕ) (Mc h : ℕ) :
    (oneDListAux Mat fn).count (Mc, h) =
      if 1 ≤ Mc ∧ Mc ≤ Mat ∧ h ≤ fn Mc then 1 else 0 := by
  by_cases hmem : 1 ≤ Mc ∧ Mc ≤ Mat ∧ h ≤ fn Mc
  · rw [if_pos hmem]
    exact count_eq_one_of_nodup_mem (nodup_oneDListAux Mat fn)
      ((mem_oneDListAux Mat fn Mc h).mpr hmem)
  · rw [if_neg hmem]
    exact List.count_eq_zero_of_not_mem
      (fun hc => hmem ((mem_oneDListAux Mat fn Mc h).mp hc))

lemma sum_map_range {M : Type} [AddCommMonoid M] (f : ℕ → M) (n : ℕ) :
    ((List.range n).map f).sum = ∑ i ∈ Finset.range n, f i := by
  induction n with
  | zero => simp
  | succ n ih => rw [List.range_succ, Finset.sum_range_succ, ← ih]; simp

lemma length_oneDListAux (Mat : ℕ) (fn : ℕ → ℕ) :
    (oneDListAux Mat fn).length = ∑ m ∈ Finset.range Mat, (fn (m + 1) + 1) := by
  unfold oneDListAux
  rw [List.length_flatMap, ← sum_map_range (fun m => fn (m + 1) + 1) Mat]
  congr 1
  refine List.map_congr_left ?_
  intro m _
  simp

omit [CommRing F] in
/-- C8: the one-dimensionalized task list (OneD2Mc_AN, OneD2h_AN) built
before the parallel quadrature loop enumerates exactly the pairs
(Mc_AN, h_AN) with 1 ≤ Mc_AN ≤ Matomnum and h_AN ≤ FNAN[M2G[Mc_AN]],
each exactly once, and its length OneD_Nloop is the sum over the
locally owned atoms of FNAN[atom] + 1. -/
theorem oneD_task_list_enumeration (c : QuadCtx F) :
    (oneDList c).length =
        ∑ Mc ∈ Finset.Icc 1 c.Matomnum, (c.FNAN (c.M2G Mc) + 1) ∧
      ∀ Mc h, (oneDList c).count (Mc, h) =
        if 1 ≤ Mc ∧ Mc ≤ c.Matomnum ∧ h ≤ c.FNAN (c.M2G Mc) then 1 else 0 := by
  constructor
  · rw [oneDList, length_oneDListAux]
    have hIco : Finset.Icc 1 c.Matomnum = Finset.Ico 1 (c.Matomnum + 1) := by
      rw [Nat.Ico_succ_right]
    rw [hIco, Finset.sum_Ico_eq_sum_range]
    simp [Nat.add_comm]
  · intro Mc h
    exact count_oneDListAux c.Matomnum _ Mc h

/-- Concrete quadrature context over ℤ: one locally owned atom with no
neighbor beyond itself, a single-point integration support, all
orbital and potential values equal to 1. -/
def quadCtxEx : QuadCtx ℤ where
  Matomnum := 1
  M2G := id
  FNAN := fun _ => 0
  natn := fun _ _ => 1
  F_G2M := id
  WhatSpecies := fun _ => 0
  Spe_Total_NO := fun _ => 1
  NumOLG := fun _ _ => 1
  GListTAtoms1 := fun _ _ _ => 0
  GListTAtoms2 := fun _ _ _ => 0
  MGridListAtom := fun _ _ => 0
  GridVol := 1
  G2ID := fun _ => 0
  myid := 0

/-- Concrete quadrature state over ℤ with zero-initialized blocks. -/
def quadStateEx : QuadState ℤ where
  Hlr := fun _ _ _ _ _ => 0
  Vlr_Grid := fun _ _ => 1
  Orbs_Grid := fun _ _ _ => 1
  Orbs_Grid_FNAN := fun _ _ _ _ => 1

/-- C1 counterexample: on a concrete one-atom, one-grid-point instance
the block after the second call to Calc_MatrixElements_Vlr differs
from the block after the first call (2 versus 1): the scratch block is
seeded from the stored block, so the quadrature accumulates across
calls. -/
theorem quadrature_not_idempotent :
    (Calc_MatrixElements_Vlr quadCtxEx 1
        (Calc_MatrixElements_Vlr quadCtxEx 1 quadStateEx)).Hlr 1 1 0 0 0 ≠
      (Calc_MatrixElements_Vlr quadCtxEx 1 quadStateEx).Hlr 1 1 0 0 0 := by
  decide

/-- C1 (amended): calling Calc_MatrixElements_Vlr twice with identical
inputs is not idempotent; instead, the second call adds the same
quadrature increment again, so every block after the second call
equals the block after the first call plus the increment of the first
call. The write-back inside one call overwrites, but the scratch block
is seeded from the stored block, so repeated calls accumulate. -/
theorem quadrature_second_call_adds_increment (c : QuadCtx F) (idx_P : ℕ)
    (st : QuadState F) (q M k i j : ℕ) :
    (Calc_MatrixElements_Vlr c idx_P
        (Calc_MatrixElements_Vlr c idx_P st)).Hlr q M k i j =
      (Calc_MatrixElements_Vlr c idx_P st).Hlr q M k i j +
        ((Calc_MatrixElements_Vlr c idx_P st).Hlr q M k i j -
          st.Hlr q M k i j) := by
  have h2 := Calc_MatrixElements_Vlr_Hlr c idx_P
    (Calc_MatrixElements_Vlr c idx_P st) q M k i j
  have h1 := Calc_MatrixElements_Vlr_Hlr c idx_P st q M k i j
  have hQ : taskQuadSum c (Calc_MatrixElements_Vlr c idx_P st) idx_P M k i j =
      taskQuadSum c st idx_P M k i j :=
    taskQuadSum_congr c _ st (Calc_MatrixElements_Vlr_Vlr_Grid c idx_P st)
      (Calc_MatrixElements_Vlr_Orbs c idx_P st)
      (Calc_MatrixElements_Vlr_Orbs_FNAN c idx_P st) idx_P M k i j
  rw [h2, hQ, h1]
  ring

/-- C10: Calc_MatrixElements_Vlr(idx_P) leaves the potential field and
both orbital arrays unchanged, leaves every source channel other than
idx_P unchanged, and within channel idx_P changes only the entries of
enumerated tasks (locally owned Mc_AN, h_AN within the neighbor count)
inside the basis bounds NO0 and NO1. -/
theorem calc_matrix_elements_frame (c : QuadCtx F) (idx_P : ℕ)
    (st : QuadState F) :
    (Calc_MatrixElements_Vlr c idx_P st).Vlr_Grid = st.Vlr_Grid ∧
      (Calc_MatrixElements_Vlr c idx_P st).Orbs_Grid = st.Orbs_Grid ∧
      (Calc_MatrixElements_Vlr c idx_P st).Orbs_Grid_FNAN =
        st.Orbs_Grid_FNAN ∧
      (∀ q M k i j, q ≠ idx_P →
        (Calc_MatrixElements_Vlr c idx_P st).Hlr q M k i j =
          st.Hlr q M k i j) ∧
      (∀ M k i j,
        ¬(1 ≤ M ∧ M ≤ c.Matomnum ∧ k ≤ c.FNAN (c.M2G M) ∧ i < NO0 c M ∧
            j < NO1 c M k) →
        (Calc_MatrixElements_Vlr c idx_P st).Hlr idx_P M k i j =
          st.Hlr idx_P M k i j) := by
  refine ⟨Calc_MatrixElements_Vlr_Vlr_Grid c idx_P st,
    Calc_MatrixElements_Vlr_Orbs c idx_P st,
    Calc_MatrixElements_Vlr_Orbs_FNAN c idx_P st, ?_, ?_⟩
  · intro q M k i j hq
    rw [Calc_MatrixElements_Vlr_Hlr, if_neg fun hcon => hq hcon.1, add_zero]
  · intro M k i j hno
    rw [Calc_MatrixElements_Vlr_Hlr]
    by_cases hb : i < NO0 c M ∧ j < NO1 c M k
    · rw [if_pos ⟨rfl, hb.1, hb.2⟩, oneDList, count_oneDListAux,
        if_neg fun hcon => hno ⟨hcon.1, hcon.2.1, hcon.2.2, hb.1, hb.2⟩]
      simp
    · rw [if_neg fun hcon => hb ⟨hcon.2.1, hcon.2.2⟩, add_zero]

/-- C10 witness: on the concrete instance, source channel 2 is
untouched by a call with idx_P = 1. -/
theorem calc_matrix_elements_frame_witness :
    (Calc_MatrixElements_Vlr quadCtxEx 1 quadStateEx).Hlr 2 1 0 0 0 =
      quadStateEx.Hlr 2 1 0 0 0 :=
  (calc_matrix_elements_frame quadCtxEx 1 quadStateEx).2.2.2.1 2 1 0 0 0
    (by decide)

/-- C9: the quadrature of one task reads the neighbor orbital factor
from the local array Orbs_Grid (at row Mh_AN = F_G2M[Gh_AN]) exactly
when G2ID[Gh_AN] == myid, and from the halo array Orbs_Grid_FNAN
otherwise; the owner factor always comes from Orbs_Grid at row Mc_AN.
Stated as two read-set facts: in the local case the sum is unchanged
under arbitrary changes of Orbs_Grid_FNAN (only rows Mc_AN and Mh_AN of
Orbs_Grid matter); in the remote case it is unchanged under arbitrary
changes of Orbs_Grid away from row Mc_AN (only row Mc_AN of Orbs_Grid
and entry [Mc_AN][h_AN] of Orbs_Grid_FNAN matter). -/
theorem neighbor_orbital_source_selection (c : QuadCtx F)
    (st st' : QuadState F) (idx_P Mc h i j : ℕ)
    (hV : st.Vlr_Grid = st'.Vlr_Grid) :
    (c.G2ID (c.natn (c.M2G Mc) h) = c.myid →
      (∀ Nc l, st.Orbs_Grid Mc Nc l = st'.Orbs_Grid Mc Nc l) →
      (∀ Nh l, st.Orbs_Grid (c.F_G2M (c.natn (c.M2G Mc) h)) Nh l =
        st'.Orbs_Grid (c.F_G2M (c.natn (c.M2G Mc) h)) Nh l) →
      taskQuadSum c st idx_P Mc h i j = taskQuadSum c st' idx_P Mc h i j) ∧
    (c.G2ID (c.natn (c.M2G Mc) h) ≠ c.myid →
      (∀ Nc l, st.Orbs_Grid Mc Nc l = st'.Orbs_Grid Mc Nc l) →
      (∀ Nog l, st.Orbs_Grid_FNAN Mc h Nog l =
        st'.Orbs_Grid_FNAN Mc h Nog l) →
      taskQuadSum c st idx_P Mc h i j = taskQuadSum c st' idx_P Mc h i j) := by
  constructor
  · intro hloc hOwn hNb
    unfold taskQuadSum
    refine Finset.sum_congr rfl ?_
    intro Nog _
    unfold quadTerm
    simp only
    rw [hV, if_pos hloc, if_pos hloc, hOwn, hNb]
  · intro hrem hOwn hFN
    unfold taskQuadSum
    refine Finset.sum_congr rfl ?_
    intro Nog _
    unfold quadTerm
    simp only
    rw [hV, if_neg hrem, if_neg hrem, hOwn, hFN]

/-- Concrete state differing from quadStateEx only in the halo orbital
array. -/
def quadStateEx2 : QuadState ℤ :=
  { quadStateEx with Orbs_Grid_FNAN := fun _ _ _ _ => 42 }

/-- C9 witness: on the concrete instance the neighbor atom is locally
owned, so the quadrature is insensitive to the halo array. -/
theorem neighbor_orbital_source_selection_witness :
    taskQuadSum quadCtxEx quadStateEx 1 1 0 0 0 =
      taskQuadSum quadCtxEx quadStateEx2 1 1 0 0 0 :=
  (neighbor_orbital_source_selection quadCtxEx quadStateEx quadStateEx2
      1 1 0 0 0 rfl).1 rfl (fun _ _ => rfl) (fun _ _ => rfl)

/-! ## Reciprocal-space solver: Calc_Vlr -/

/-- Read-only context of the reciprocal-space solver: grid dimensions,
reciprocal lattice vectors rtv, source positions Gxyz, the cell
volume, and the transcendental functions of the C library, kept
abstract. -/
structure VlrCtx (K : Type) where
  Ngrid1 : ℕ
  Ngrid2 : ℕ
  Ngrid3 : ℕ
  rtv : ℕ → ℕ → K
  Gxyz : ℕ → ℕ → K
  Cell_Volume : K
  pi : K
  expf : K → K
  cosf : K → K
  sinf : K → K

section Vlr

variable {K : Type} [LinearOrderedField K]

/-- Recovery of the 3D indices (k1, k2, k3) from the flat index GN,
exactly as computed at openmx.c:1562-1564. -/
def recover3 (N1 N2 GN : ℕ) : ℕ × ℕ × ℕ :=
  let k3 := GN / (N2 * N1)
  let k2 := (GN - k3 * N2 * N1) / N1
  let k1 := GN - k3 * N2 * N1 - k2 * N1
  (k1, k2, k3)

/-- Brillouin-zone folding of one axis index, exactly as computed at
openmx.c:1566-1573: k stays k when k < N/2 (C integer division) and
becomes k - N otherwise. -/
def skOf (N k : ℕ) : K :=
  if k < N / 2 then (k : K) else (k : K) - (N : K)

/-- The specification-side folding map into the symmetric
Brillouin-zone range, valued in ℤ. -/
def foldBZ (N k : ℕ) : ℤ :=
  if k < N / 2 then (k : ℤ) else (k : ℤ) - (N : ℤ)

lemma skOf_eq_foldBZ (N k : ℕ) : (skOf N k : K) = (foldBZ N k : K) := by
  unfold skOf foldBZ
  split_ifs <;> push_cast <;> ring

/-- Specification-side Cartesian reciprocal vector component along
axis ax, built from the folded indices and the reciprocal lattice
vectors. -/
def specG (c : VlrCtx K) (k1 k2 k3 ax : ℕ) : K :=
  (foldBZ c.Ngrid1 k1 : K) * c.rtv 1 ax + (foldBZ c.Ngrid2 k2 : K) * c.rtv 2 ax +
    (foldBZ c.Ngrid3 k3 : K) * c.rtv 3 ax

/-- Specification-side squared reciprocal-vector magnitude K2. -/
def specK2 (c : VlrCtx K) (k1 k2 k3 : ℕ) : K :=
  specG c k1 k2 k3 1 * specG c k1 k2 k3 1 +
    specG c k1 k2 k3 2 * specG c k1 k2 k3 2 +
    specG c k1 k2 k3 3 * specG c k1 k2 k3 3

/-- Specification-side phase argument G·r of source idx_P. -/
def specGr (c : VlrCtx K) (idx_P k1 k2 k3 : ℕ) : K :=
  specG c k1 k2 k3 1 * c.Gxyz idx_P 1 + specG c k1 k2 k3 2 * c.Gxyz idx_P 2 +
    specG c k1 k2 k3 3 * c.Gxyz idx_P 3

/-- Specification-side screened Coulomb magnitude
(4π/CellVolume)/K2 · exp(-σ²·K2/2). -/
def specMagnitude (c : VlrCtx K) (sigma K2 : K) : K :=
  4 * c.pi / c.Cell_Volume / K2 * c.expf (-sigma ^ 2 * K2 / 2)

/-- The reciprocal-space coefficient (ReVlrk, ImVlrk) that Calc_Vlr
stores for source idx_P at the partition-B grid point BN_CB with base
offset GNs, exactly as computed at openmx.c:1550-1588. -/
def Calc_Vlr_coeff (c : VlrCtx K) (idx_P BN_CB GNs : ℕ) : K × K :=
  let sigma : K := 1
  let tmp0 : K := 4 * c.pi / c.Cell_Volume
  let GN := BN_CB + GNs
  let ks := recover3 c.Ngrid1 c.Ngrid2 GN
  let sk1 : K := skOf c.Ngrid1 ks.1
  let sk2 : K := skOf c.Ngrid2 ks.2.1
  let sk3 : K := skOf c.Ngrid3 ks.2.2
  let Gx := sk1 * c.rtv 1 1 + sk2 * c.rtv 2 1 + sk3 * c.rtv 3 1
  let Gy := sk1 * c.rtv 1 2 + sk2 * c.rtv 2 2 + sk3 * c.rtv 3 2
  let Gz := sk1 * c.rtv 1 3 + sk2 * c.rtv 2 3 + sk3 * c.rtv 3 3
  let KK := Gx * Gx + Gy * Gy + Gz * Gz
  let thx := -Gx * c.Gxyz idx_P 1
  let thy := -Gy * c.Gxyz idx_P 2
  let thz := -Gz * c.Gxyz idx_P 3
  if 0 < KK then
    (tmp0 / KK * c.expf (-sigma * sigma * KK / 2) * c.cosf (thx + thy + thz),
      -tmp0 / KK * c.expf (-sigma * sigma * KK / 2) * c.sinf (thx + thy + thz))
  else
    (0, 0)

/-- Variant of Calc_Vlr_coeff in which the division by KK is checked:
it returns none exactly when a division by a vanishing KK would be
evaluated inside the taken branch. -/
def Calc_Vlr_coeff_checked (c : VlrCtx K) (idx_P BN_CB GNs : ℕ) :
    Option (K × K) :=
  let sigma : K := 1
  let tmp0 : K := 4 * c.pi / c.Cell_Volume
  let GN := BN_CB + GNs
  let ks := recover3 c.Ngrid1 c.Ngrid2 GN
  let sk1 : K := skOf c.Ngrid1 ks.1
  let sk2 : K := skOf c.Ngrid2 ks.2.1
  let sk3 : K := skOf c.Ngrid3 ks.2.2
  let Gx := sk1 * c.rtv 1 1 + sk2 * c.rtv 2 1 + sk3 * c.rtv 3 1
  let Gy := sk1 * c.rtv 1 2 + sk2 * c.rtv 2 2 + sk3 * c.rtv 3 2
  let Gz := sk1 * c.rtv 1 3 + sk2 * c.rtv 2 3 + sk3 * c.rtv 3 3
  let KK := Gx * Gx + Gy * Gy + Gz * Gz
  let thx := -Gx * c.Gxyz idx_P 1
  let thy := -Gy * c.Gxyz idx_P 2
  let thz := -Gz * c.Gxyz idx_P 3
  if 0 < KK then
    if KK = 0 then none
    else
      some (tmp0 / KK * c.expf (-sigma * sigma * KK / 2) *
          c.cosf (thx + thy + thz),
        -tmp0 / KK * c.expf (-sigma * sigma * KK / 2) *
          c.sinf (thx + thy + thz))
  else
    some (0, 0)

lemma phase_cos (cosf : K → K) (hcos : ∀ x, cosf (-x) = cosf x)
    (Gx Gy Gz r1 r2 r3 : K) :
    cosf (-Gx * r1 + -Gy * r2 + -Gz * r3) =
      cosf (Gx * r1 + Gy * r2 + Gz * r3) := by
  rw [show -Gx * r1 + -Gy * r2 + -Gz * r3 =
      -(Gx * r1 + Gy * r2 + Gz * r3) by ring, hcos]

lemma phase_sin (sinf : K → K) (hsin : ∀ x, sinf (-x) = -sinf x)
    (Gx Gy Gz r1 r2 r3 : K) :
    sinf (-Gx * r1 + -Gy * r2 + -Gz * r3) =
      -sinf (Gx * r1 + Gy * r2 + Gz * r3) := by
  rw [show -Gx * r1 + -Gy * r2 + -Gz * r3 =
      -(Gx * r1 + Gy * r2 + Gz * r3) by ring, hsin]

lemma exp_arg (E : K → K) (s KK : K) :
    E (-s * s * KK / 2) = E (-s ^ 2 * KK / 2) := by
  rw [show -s * s * KK / 2 = -s ^ 2 * KK / 2 by ring]

lemma recover3_spec (N1 N2 GN : ℕ) (h1 : 0 < N1) (h2 : 0 < N2) :
    GN = (recover3 N1 N2 GN).2.2 * N2 * N1 + (recover3 N1 N2 GN).2.1 * N1 +
        (recover3 N1 N2 GN).1 ∧
      (recover3 N1 N2 GN).1 < N1 ∧ (recover3 N1 N2 GN).2.1 < N2 := by
  unfold recover3
  simp only
  have hpos : 0 < N2 * N1 := Nat.mul_pos h2 h1
  have e1 : N2 * N1 * (GN / (N2 * N1)) + GN % (N2 * N1) = GN :=
    Nat.div_add_mod GN (N2 * N1)
  have c1 : GN / (N2 * N1) * N2 * N1 = N2 * N1 * (GN / (N2 * N1)) := by ring
  have hsub : GN - GN / (N2 * N1) * N2 * N1 = GN % (N2 * N1) := by omega
  rw [hsub]
  have e3 : N1 * (GN % (N2 * N1) / N1) + GN % (N2 * N1) % N1 =
      GN % (N2 * N1) := Nat.div_add_mod (GN % (N2 * N1)) N1
  have c2 : GN % (N2 * N1) / N1 * N1 = N1 * (GN % (N2 * N1) / N1) := by ring
  have b1 : GN % (N2 * N1) % N1 < N1 := Nat.mod_lt _ h1
  have b2 : GN % (N2 * N1) < N2 * N1 := Nat.mod_lt _ hpos
  have b3 : GN % (N2 * N1) / N1 < N2 := by
    rw [Nat.div_lt_iff_lt_mul h1]
    exact b2
  omega

/-- C2: for every partition-B grid point, the flat index GN = BN_CB +
GNs decomposes as GN = k3·N2·N1 + k2·N1 + k1 with k1 < N1 and k2 < N2
through the recovery of openmx.c:1562-1564; each axis index is folded
into the symmetric Brillouin-zone range (k if k < N/2 else k - N);
and whenever the squared reciprocal magnitude K2 is positive, the
stored coefficient is the screened Coulomb magnitude
(4π/CellVolume)/K2 · exp(-σ²·K2/2) with σ = 1, phase-modulated by the
source position: real part cos(G·r), imaginary part sin(G·r). -/
theorem reciprocal_kernel_coefficient (c : VlrCtx K) (idx_P BN_CB GNs : ℕ)
    (hN1 : 0 < c.Ngrid1) (hN2 : 0 < c.Ngrid2)
    (hcos : ∀ x, c.cosf (-x) = c.cosf x)
    (hsin : ∀ x, c.sinf (-x) = -c.sinf x) :
    BN_CB + GNs =
        (recover3 c.Ngrid1 c.Ngrid2 (BN_CB + GNs)).2.2 * c.Ngrid2 * c.Ngrid1 +
          (recover3 c.Ngrid1 c.Ngrid2 (BN_CB + GNs)).2.1 * c.Ngrid1 +
          (recover3 c.Ngrid1 c.Ngrid2 (BN_CB + GNs)).1 ∧
      (recover3 c.Ngrid1 c.Ngrid2 (BN_CB + GNs)).1 < c.Ngrid1 ∧
      (recover3 c.Ngrid1 c.Ngrid2 (BN_CB + GNs)).2.1 < c.Ngrid2 ∧
      (0 <
          specK2 c (recover3 c.Ngrid1 c.Ngrid2 (BN_CB + GNs)).1
            (recover3 c.Ngrid1 c.Ngrid2 (BN_CB + GNs)).2.1
            (recover3 c.Ngrid1 c.Ngrid2 (BN_CB + GNs)).2.2 →
        (Calc_Vlr_coeff c idx_P BN_CB GNs).1 =
            specMagnitude c 1
                (specK2 c (recover3 c.Ngrid1 c.Ngrid2 (BN_CB + GNs)).1
                  (recover3 c.Ngrid1 c.Ngrid2 (BN_CB + GNs)).2.1
                  (recover3 c.Ngrid1 c.Ngrid2 (BN_CB + GNs)).2.2) *
              c.cosf
                (specGr c idx_P (recover3 c.Ngrid1 c.Ngrid2 (BN_CB + GNs)).1
                  (recover3 c.Ngrid1 c.Ngrid2 (BN_CB + GNs)).2.1
                  (recover3 c.Ngrid1 c.Ngrid2 (BN_CB + GNs)).2.2) ∧
          (Calc_Vlr_coeff c idx_P BN_CB GNs).2 =
            specMagnitude c 1
                (specK2 c (recover3 c.Ngrid1 c.Ngrid2 (BN_CB + GNs)).1
                  (recover3 c.Ngrid1 c.Ngrid2 (BN_CB + GNs)).2.1
                  (recover3 c.Ngrid1 c.Ngrid2 (BN_CB + GNs)).2.2) *
              c.sinf
                (specGr c idx_P (recover3 c.Ngrid1 c.Ngrid2 (BN_CB + GNs)).1
                  (recover3 c.Ngrid1 c.Ngrid2 (BN_CB + GNs)).2.1
                  (recover3 c.Ngrid1 c.Ngrid2 (BN_CB + GNs)).2.2)) := by
  obtain ⟨hdec, hb1, hb2⟩ :=
    recover3_spec c.Ngrid1 c.Ngrid2 (BN_CB + GNs) hN1 hN2
  refine ⟨hdec, hb1, hb2, ?_⟩
  intro hpos
  simp only [specK2, specG] at hpos
  simp only [Calc_Vlr_coeff, skOf_eq_foldBZ]
  rw [if_pos hpos]
  constructor
  · simp only [specMagnitude, specK2, specGr, specG]
    rw [phase_cos c.cosf hcos, exp_arg c.expf 1]
  · simp only [specMagnitude, specK2, specGr, specG]
    rw [phase_sin c.sinf hsin, exp_arg c.expf 1]
    ring

/-- C3: at every grid point where the squared reciprocal magnitude K2
vanishes, both stored coefficients are exactly zero, and the division
by K2 is evaluated only under the guard K2 > 0, so the checked variant
of the kernel never reports a division by zero, for any grid point of
any source index. -/
theorem reciprocal_kernel_zero_mode (c : VlrCtx K) (idx_P BN_CB GNs : ℕ) :
    (specK2 c (recover3 c.Ngrid1 c.Ngrid2 (BN_CB + GNs)).1
        (recover3 c.Ngrid1 c.Ngrid2 (BN_CB + GNs)).2.1
        (recover3 c.Ngrid1 c.Ngrid2 (BN_CB + GNs)).2.2 = 0 →
      Calc_Vlr_coeff c idx_P BN_CB GNs = (0, 0)) ∧
    Calc_Vlr_coeff_checked c idx_P BN_CB GNs =
      some (Calc_Vlr_coeff c idx_P BN_CB GNs) := by
  constructor
  · intro h0
    simp only [specK2, specG] at h0
    simp only [Calc_Vlr_coeff, skOf_eq_foldBZ]
    rw [if_neg (not_lt.mpr h0.le)]
  · simp only [Calc_Vlr_coeff_checked, Calc_Vlr_coeff]
    split_ifs with h1 h2
    · rw [h2] at h1
      exact absurd h1 (lt_irrefl 0)
    · rfl
    · rfl

end Vlr

/-- Concrete reciprocal-space context over ℚ: a 2×2×2 grid, identity
reciprocal lattice, source at the origin,
constant stand-ins for exp and cos, and the identity for sin (odd, as
required). -/
def vlrCtxEx : VlrCtx ℚ where
  Ngrid1 := 2
  Ngrid2 := 2
  Ngrid3 := 2
  rtv := fun a b => if a = b then 1 else 0
  Gxyz := fun _ _ => 0
  Cell_Volume := 1
  pi := 3
  expf := fun _ => 1
  cosf := fun _ => 1
  sinf := fun x => x

/-- C2 witness: on the concrete 2×2×2 instance at GN = 1 the folded
index is -1, K2 = 1 > 0, and the stored real part equals the screened
magnitude times the (trivial) phase. -/
theorem reciprocal_kernel_coefficient_witness :
    (Calc_Vlr_coeff vlrCtxEx 1 1 0).1 =
      specMagnitude vlrCtxEx 1
          (specK2 vlrCtxEx (recover3 vlrCtxEx.Ngrid1 vlrCtxEx.Ngrid2 (1 + 0)).1
            (recover3 vlrCtxEx.Ngrid1 vlrCtxEx.Ngrid2 (1 + 0)).2.1
            (recover3 vlrCtxEx.Ngrid1 vlrCtxEx.Ngrid2 (1 + 0)).2.2) *
        vlrCtxEx.cosf
          (specGr vlrCtxEx 1 (recover3 vlrCtxEx.Ngrid1 vlrCtxEx.Ngrid2 (1 + 0)).1
            (recover3 vlrCtxEx.Ngrid1 vlrCtxEx.Ngrid2 (1 + 0)).2.1
            (recover3 vlrCtxEx.Ngrid1 vlrCtxEx.Ngrid2 (1 + 0)).2.2) :=
  ((reciprocal_kernel_coefficient vlrCtxEx 1 1 0 (by decide) (by decide)
      (fun _ => rfl) (fun _ => rfl)).2.2.2
    (by norm_num [specK2, specG, foldBZ, recover3, vlrCtxEx])).1

/-- Concrete reciprocal-space context over ℚ with vanishing reciprocal
lattice vectors, so that K2 = 0 at every grid point. -/
def vlrCtxEx0 : VlrCtx ℚ :=
  { vlrCtxEx with rtv := fun _ _ => 0 }

/-- C3 witness: on the concrete degenerate instance K2 = 0 and the
stored coefficient is exactly (0, 0). -/
theorem reciprocal_kernel_zero_mode_witness :
    Calc_Vlr_coeff vlrCtxEx0 1 0 0 = (0, 0) :=
  (reciprocal_kernel_zero_mode vlrCtxEx0 1 0 0).1
    (by norm_num [specK2, specG, foldBZ, recover3, vlrCtxEx0, vlrCtxEx])

/-! ## Grid redistribution: Data_Grid_Copy_B2C_XiwenLi

The redistribution plan is the set of global arrays consumed by the
routine; one scalar field per process is a function out of
partition-local indices. Send and receive scratch buffers start from
arbitrary (uninitialized) contents, and the order in which the posted
messages are delivered into the receive buffer is an explicit
parameter, so that the theorems quantify over network timing. -/

/-- The precomputed B-to-C redistribution plan: partner lists
ID_NN_B2C_S / ID_NN_B2C_R, buffer offsets GP_B2C_S / GP_B2C_R,
per-partner counts Num_Snd_Grid_B2C / Num_Rcv_Grid_B2C, index lists
Index_Snd_Grid_B2C / Index_Rcv_Grid_B2C (first argument: the owning
process), and the local field lengths of the two partitions. -/
structure B2CPlan where
  numprocs : ℕ
  ID_NN_B2C_S : ℕ → List ℕ
  ID_NN_B2C_R : ℕ → List ℕ
  GP_B2C_S : ℕ → ℕ → ℕ
  GP_B2C_R : ℕ → ℕ → ℕ
  Num_Snd_Grid_B2C : ℕ → ℕ → ℕ
  Num_Rcv_Grid_B2C : ℕ → ℕ → ℕ
  Index_Snd_Grid_B2C : ℕ → ℕ → ℕ → ℕ
  Index_Rcv_Grid_B2C : ℕ → ℕ → ℕ → ℕ
  NumGridB : ℕ → ℕ
  NumGridC : ℕ → ℕ

section Redistribution

variable {V : Type}

/-- Write the n values v 0, ..., v (n-1) into a buffer at offsets
gp, ..., gp+n-1 (the inner LN loop of the pack, exchange, and unpack
phases). -/
def writeSeg (gp n : ℕ) (v : ℕ → V) (b : ℕ → V) : ℕ → V :=
  (List.range n).foldl (fun f LN => Function.update f (gp + LN) (v LN)) b

lemma writeSeg_eq (gp n : ℕ) (v : ℕ → V) (b : ℕ → V) (m : ℕ) :
    writeSeg gp n v b m = if gp ≤ m ∧ m < gp + n then v (m - gp) else b m := by
  induction n with
  | zero =>
    unfold writeSeg
    simp only [List.range_zero, List.foldl_nil]
    rw [if_neg (by omega)]
  | succ n ih =>
    unfold writeSeg at ih ⊢
    rw [List.range_succ, List.foldl_append, List.foldl_cons, List.foldl_nil]
    by_cases hm : m = gp + n
    · subst hm
      rw [Function.update_same, if_pos ⟨by omega, by omega⟩,
        Nat.add_sub_cancel_left]
    · rw [Function.update_noteq hm, ih]
      by_cases hc : gp ≤ m ∧ m < gp + n
      · rw [if_pos hc, if_pos ⟨hc.1, by omega⟩]
      · rw [if_neg hc, if_neg fun hcon => hc ⟨hcon.1, by omega⟩]

/-- Write a family of buffer segments, one for each segment index in
the list o: segment ID occupies offsets g ID, ..., g ID + num ID - 1
and carries the values val ID. -/
def segFoldList (g num : ℕ → ℕ) (val : ℕ → ℕ → V) (init : ℕ → V)
    (o : List ℕ) : ℕ → V :=
  o.foldl (fun buf ID => writeSeg (g ID) (num ID) (val ID) buf) init

lemma gp_mono (g num : ℕ → ℕ) (L : ℕ)
    (hsucc : ∀ ID < L, g (ID + 1) = g ID + num ID) :
    ∀ a b, a ≤ b → b ≤ L → g a ≤ g b := by
  intro a b hab hbL
  induction b with
  | zero =>
    have ha : a = 0 := by omega
    subst ha
    exact le_refl _
  | succ b ihb =>
    rcases Nat.lt_or_ge a (b + 1) with h | h
    · have h1 := ihb (by omega) (by omega)
      have h2 := hsucc b (by omega)
      omega
    · have ha : a = b + 1 := by omega
      subst ha
      exact le_refl _

/-- Positions inside segment ID are untouched by writes of other
segments: disjointness of the offset ranges under the prefix-sum
recurrence for the offsets. -/
lemma segFoldList_preserve (g num : ℕ → ℕ) (val : ℕ → ℕ → V) (L : ℕ)
    (hsucc : ∀ ID < L, g (ID + 1) = g ID + num ID) (ID : ℕ) (hIDL : ID < L) :
    ∀ (o : List ℕ) (b : ℕ → V), (∀ y ∈ o, y < L ∧ y ≠ ID) →
      ∀ LN < num ID, segFoldList g num val b o (g ID + LN) = b (g ID + LN) := by
  intro o
  induction o with
  | nil =>
    intro b _ LN _
    rfl
  | cons y t ih =>
    intro b hy LN hLN
    unfold segFoldList at ih ⊢
    rw [List.foldl_cons]
    rw [ih (writeSeg (g y) (num y) (val y) b)
      (fun z hz => hy z (List.mem_cons_of_mem y hz)) LN hLN]
    obtain ⟨hyL, hyne⟩ := hy y (List.mem_cons_self y t)
    rw [writeSeg_eq]
    rcases Nat.lt_or_ge y ID with h1 | h1
    · have e := hsucc y hyL
      have m1 := gp_mono g num L hsucc (y + 1) ID (by omega) (by omega)
      rw [if_neg (by omega)]
    · have h2 : ID < y := by omega
      have e := hsucc ID hIDL
      have m1 := gp_mono g num L hsucc (ID + 1) y (by omega) (by omega)
      rw [if_neg (by omega)]

/-- Reading back a written segment: for any duplicate-free family of
segment indices below L, the value at offset g ID + LN of segment
ID is val ID LN, whatever the writing order and the initial buffer
contents. -/
lemma segFoldList_eq (g num : ℕ → ℕ) (val : ℕ → ℕ → V) (L : ℕ)
    (hsucc : ∀ ID < L, g (ID + 1) = g ID + num ID) :
    ∀ (o : List ℕ) (init : ℕ → V), o.Nodup → (∀ x ∈ o, x < L) →
      ∀ ID ∈ o, ∀ LN < num ID,
        segFoldList g num val init o (g ID + LN) = val ID LN := by
  intro o
  induction o with
  | nil =>
    intro init _ _ ID hID
    cases hID
  | cons x t ih =>
    intro init hnd hlt ID hID LN hLN
    unfold segFoldList at ih ⊢
    rw [List.foldl_cons]
    rcases List.mem_cons.mp hID with heq | hmem
    · subst heq
      have hpres := segFoldList_preserve g num val L hsucc ID (hlt ID hID) t
        (writeSeg (g ID) (num ID) (val ID) init)
        (fun y hy => ⟨hlt y (List.mem_cons_of_mem ID hy),
          fun hc => (List.nodup_cons.mp hnd).1 (hc ▸ hy)⟩) LN hLN
      unfold segFoldList at hpres
      rw [hpres, writeSeg_eq, if_pos ⟨by omega, by omega⟩,
        Nat.add_sub_cancel_left]
    · exact ih (writeSeg (g x) (num x) (val x) init)
        (List.nodup_cons.mp hnd).2
        (fun z hz => hlt z (List.mem_cons_of_mem x hz)) ID hmem LN hLN

/-- Sequential writes of (index, value) pairs (the unpack loop's write
trace). -/
def writeSeq (ps : List (ℕ × V)) (b : ℕ → V) : ℕ → V :=
  ps.foldl (fun f q => Function.update f q.1 q.2) b

lemma writeSeq_of_not_mem :
    ∀ (ps : List (ℕ × V)) (k : ℕ), k ∉ ps.map Prod.fst →
      ∀ b : ℕ → V, writeSeq ps b k = b k := by
  intro ps
  induction ps with
  | nil =>
    intro k _ b
    rfl
  | cons q t ih =>
    intro k h b
    unfold writeSeq at ih ⊢
    rw [List.foldl_cons]
    have hmem : k ∉ t.map Prod.fst := fun hc =>
      h (by rw [List.map_cons]; exact List.mem_cons_of_mem _ hc)
    have hk : k ≠ q.1 := fun hc =>
      h (by rw [List.map_cons, hc]; exact List.mem_cons_self _ _)
    rw [ih k hmem (Function.update b q.1 q.2), Function.update_noteq hk]

lemma writeSeq_of_mem :
    ∀ (ps : List (ℕ × V)), (ps.map Prod.fst).Nodup →
      ∀ (k : ℕ) (v : V), (k, v) ∈ ps →
        ∀ b : ℕ → V, writeSeq ps b k = v := by
  intro ps
  induction ps with
  | nil =>
    intro _ k v hmem
    cases hmem
  | cons q t ih =>
    intro hnd k v hmem b
    unfold writeSeq at ih ⊢
    rw [List.foldl_cons]
    rw [List.map_cons] at hnd
    rcases List.mem_cons.mp hmem with heq | hm
    · have hk1 : q.1 = k := (congrArg Prod.fst heq).symm
      have hv : q.2 = v := (congrArg Prod.snd heq).symm
      have hnotin : k ∉ t.map Prod.fst := fun hc =>
        (List.nodup_cons.mp hnd).1 (by rw [hk1]; exact hc)
      have hrest := writeSeq_of_not_mem t k hnotin (Function.update b q.1 q.2)
      unfold writeSeq at hrest
      rw [hrest, ← hk1, Function.update_same, hv]
    · exact ih (List.nodup_cons.mp hnd).2 k v hm (Function.update b q.1 q.2)

/-- The pack phase on process p (openmx.c:1658-1677, the copy into
Work_Array_Snd_Grid_B2C): for every send-partner position ID, write
the field values of the index list of partner ID_NN_B2C_S[ID] into the
send buffer at offset GP_B2C_S[ID]. The buffer starts from arbitrary
malloc contents init. -/
def packSnd (P : B2CPlan) (dataB : ℕ → V) (p : ℕ) (init : ℕ → V) : ℕ → V :=
  segFoldList (P.GP_B2C_S p)
    (fun ID => P.Num_Snd_Grid_B2C p ((P.ID_NN_B2C_S p).getD ID 0))
    (fun ID LN => dataB (P.Index_Snd_Grid_B2C p ((P.ID_NN_B2C_S p).getD ID 0) LN))
    init (List.range (P.ID_NN_B2C_S p).length)

/-- The LN-th value of the message from process s to process r: the
MPI_Isend at openmx.c:1672-1676 sends Num_Snd_Grid_B2C[r] doubles
starting at offset GP_B2C_S[position of r in ID_NN_B2C_S] of s's send
buffer. -/
def msgVal (P : B2CPlan) (dataB initS : ℕ → ℕ → V) (s r LN : ℕ) : V :=
  packSnd P (dataB s) s (initS s)
    (P.GP_B2C_S s ((P.ID_NN_B2C_S s).indexOf r) + LN)

/-- The receive buffer Work_Array_Rcv_Grid_B2C of process r after all
posted receives have completed: each posted message (one per remote
receive-partner position, openmx.c:1643-1654) lands at offset
GP_B2C_R[ID]; the list `order` is the order in which the messages
complete, and the buffer starts from arbitrary malloc contents
initR. -/
def rcvBuf (P : B2CPlan) (dataB initS : ℕ → ℕ → V) (r : ℕ)
    (initR : ℕ → V) (order : List ℕ) : ℕ → V :=
  segFoldList (P.GP_B2C_R r)
    (fun ID => P.Num_Rcv_Grid_B2C r ((P.ID_NN_B2C_R r).getD ID 0))
    (fun ID LN => msgVal P dataB initS ((P.ID_NN_B2C_R r).getD ID 0) r LN)
    initR order

/-- Receive-partner positions of process r for which a network receive
is posted: those whose partner is not r itself (the IDR != myid guard
at openmx.c:1648). -/
def remotePositions (P : B2CPlan) (r : ℕ) : List ℕ :=
  (List.range (P.ID_NN_B2C_R r).length).filter
    fun ID => (P.ID_NN_B2C_R r).getD ID 0 ≠ r

/-- Partner process IDs for which the send loop posts an MPI_Isend
(openmx.c:1658-1677): every entry of ID_NN_B2C_S except the calling
process itself. -/
def postedSndIDs (P : B2CPlan) (p : ℕ) : List ℕ :=
  ((List.range (P.ID_NN_B2C_S p).length).map
    fun ID => (P.ID_NN_B2C_S p).getD ID 0).filter fun IDS => IDS ≠ p

/-- Partner process IDs for which the receive loop posts an MPI_Irecv
(openmx.c:1643-1654): every entry of ID_NN_B2C_R except the calling
process itself. -/
def postedRcvIDs (P : B2CPlan) (p : ℕ) : List ℕ :=
  ((List.range (P.ID_NN_B2C_R p).length).map
    fun ID => (P.ID_NN_B2C_R p).getD ID 0).filter fun IDR => IDR ≠ p

/-- The unpack phase on process r (openmx.c:1689-1710): for every
receive-partner position ID with partner IDR, copy value LN of that
partner's data into data_C[Index_Rcv_Grid_B2C[IDR][LN]]; for the
self-partner the source is the process's own send buffer at offset
GP_B2C_S[ID], otherwise the receive buffer at offset GP_B2C_R[ID]. -/
def unpack (P : B2CPlan) (r : ℕ) (sndB rcvB : ℕ → V) (dataC0 : ℕ → V) :
    ℕ → V :=
  (List.range (P.ID_NN_B2C_R r).length).foldl
    (fun dC ID =>
      if (P.ID_NN_B2C_R r).getD ID 0 = r then
        (List.range (P.Num_Rcv_Grid_B2C r ((P.ID_NN_B2C_R r).getD ID 0))).foldl
          (fun d LN =>
            Function.update d
              (P.Index_Rcv_Grid_B2C r ((P.ID_NN_B2C_R r).getD ID 0) LN)
              (sndB (P.GP_B2C_S r ID + LN))) dC
      else
        (List.range (P.Num_Rcv_Grid_B2C r ((P.ID_NN_B2C_R r).getD ID 0))).foldl
          (fun d LN =>
            Function.update d
              (P.Index_Rcv_Grid_B2C r ((P.ID_NN_B2C_R r).getD ID 0) LN)
              (rcvB (P.GP_B2C_R r ID + LN))) dC)
    dataC0

/-- The full redistribution on process r: pack the local partition-B
field, exchange (messages complete in the given order), and unpack
into the partition-C field. -/
def Data_Grid_Copy_B2C_XiwenLi (P : B2CPlan) (dataB initS initR : ℕ → ℕ → V)
    (order : ℕ → List ℕ) (dataC0 : ℕ → ℕ → V) (r : ℕ) : ℕ → V :=
  unpack P r (packSnd P (dataB r) r (initS r))
    (rcvBuf P dataB initS r (initR r) (order r)) (dataC0 r)

/-- The sequence of (destination index, value) writes performed by the
unpack loop, in loop order. -/
def unpackTrace (P : B2CPlan) (r : ℕ) (sndB rcvB : ℕ → V) :
    List (ℕ × V) :=
  (List.range (P.ID_NN_B2C_R r).length).flatMap fun ID =>
    (List.range (P.Num_Rcv_Grid_B2C r ((P.ID_NN_B2C_R r).getD ID 0))).map
      fun LN =>
        (P.Index_Rcv_Grid_B2C r ((P.ID_NN_B2C_R r).getD ID 0) LN,
          if (P.ID_NN_B2C_R r).getD ID 0 = r then sndB (P.GP_B2C_S r ID + LN)
          else rcvB (P.GP_B2C_R r ID + LN))

/-- All partition-C destination indices named by the receive index
lists of process r, in loop order. -/
def rcvTargets (P : B2CPlan) (r : ℕ) : List ℕ :=
  (List.range (P.ID_NN_B2C_R r).length).flatMap fun ID =>
    (List.range (P.Num_Rcv_Grid_B2C r ((P.ID_NN_B2C_R r).getD ID 0))).map
      fun LN => P.Index_Rcv_Grid_B2C r ((P.ID_NN_B2C_R r).getD ID 0) LN

/-- All partition-B source indices named by the send index lists of
process p, in loop order. -/
def sndSources (P : B2CPlan) (p : ℕ) : List ℕ :=
  (List.range (P.ID_NN_B2C_S p).length).flatMap fun ID =>
    (List.range (P.Num_Snd_Grid_B2C p ((P.ID_NN_B2C_S p).getD ID 0))).map
      fun LN => P.Index_Snd_Grid_B2C p ((P.ID_NN_B2C_S p).getD ID 0) LN

lemma unpack_eq_writeSeq (P : B2CPlan) (r : ℕ) (sndB rcvB : ℕ → V)
    (dataC0 : ℕ → V) :
    unpack P r sndB rcvB dataC0 =
      writeSeq (unpackTrace P r sndB rcvB) dataC0 := by
  unfold unpack unpackTrace writeSeq
  rw [List.flatMap_def, List.foldl_flatten, List.foldl_map]
  congr 1
  funext dC ID
  by_cases hID : (P.ID_NN_B2C_R r).getD ID 0 = r
  · rw [if_pos hID, List.foldl_map]
    simp only [if_pos hID]
  · rw [if_neg hID, List.foldl_map]
    simp only [if_neg hID]

lemma unpackTrace_keys (P : B2CPlan) (r : ℕ) (sndB rcvB : ℕ → V) :
    (unpackTrace P r sndB rcvB).map Prod.fst = rcvTargets P r := by
  unfold unpackTrace rcvTargets
  rw [List.map_flatMap]
  refine List.flatMap_congr ?_
  intro ID _
  rw [List.map_map]
  rfl

end Redistribution

/-- Validity of a redistribution plan, the contract the external plan
construction guarantees (spec sections 3 and 4.1): partner ids are
process ranks; partner lists are duplicate-free; buffer offsets are
the running sums of the per-partner counts; sender and receiver record
each other with matching counts; the self-partner occupies the same
position in both partner lists; the receive index lists of a process
enumerate each partition-C local index exactly once, and the send
index lists each partition-B local index exactly once. -/
structure ValidPlan (P : B2CPlan) : Prop where
  snd_lt : ∀ p < P.numprocs, ∀ q ∈ P.ID_NN_B2C_S p, q < P.numprocs
  rcv_lt : ∀ p < P.numprocs, ∀ q ∈ P.ID_NN_B2C_R p, q < P.numprocs
  snd_nodup : ∀ p < P.numprocs, (P.ID_NN_B2C_S p).Nodup
  rcv_nodup : ∀ p < P.numprocs, (P.ID_NN_B2C_R p).Nodup
  gpS_succ : ∀ p < P.numprocs, ∀ ID < (P.ID_NN_B2C_S p).length,
    P.GP_B2C_S p (ID + 1) =
      P.GP_B2C_S p ID + P.Num_Snd_Grid_B2C p ((P.ID_NN_B2C_S p).getD ID 0)
  gpR_succ : ∀ p < P.numprocs, ∀ ID < (P.ID_NN_B2C_R p).length,
    P.GP_B2C_R p (ID + 1) =
      P.GP_B2C_R p ID + P.Num_Rcv_Grid_B2C p ((P.ID_NN_B2C_R p).getD ID 0)
  pair_mem : ∀ s < P.numprocs, ∀ r < P.numprocs,
    (r ∈ P.ID_NN_B2C_S s ↔ s ∈ P.ID_NN_B2C_R r)
  counts : ∀ s < P.numprocs, ∀ r < P.numprocs,
    P.Num_Snd_Grid_B2C s r = P.Num_Rcv_Grid_B2C r s
  self_pos : ∀ p < P.numprocs, p ∈ P.ID_NN_B2C_R p →
    (P.ID_NN_B2C_R p).indexOf p = (P.ID_NN_B2C_S p).indexOf p
  rcv_perm : ∀ r < P.numprocs,
    (rcvTargets P r).Perm (List.range (P.NumGridC r))
  snd_perm : ∀ p < P.numprocs,
    (sndSources P p).Perm (List.range (P.NumGridB p))

section Redistribution2

variable {V : Type}

lemma packSnd_read (P : B2CPlan) (p q : ℕ) (dataB init : ℕ → V)
    (hgp : ∀ ID < (P.ID_NN_B2C_S p).length,
      P.GP_B2C_S p (ID + 1) =
        P.GP_B2C_S p ID + P.Num_Snd_Grid_B2C p ((P.ID_NN_B2C_S p).getD ID 0))
    (hq : q ∈ P.ID_NN_B2C_S p) (LN : ℕ)
    (hLN : LN < P.Num_Snd_Grid_B2C p q) :
    packSnd P dataB p init
        (P.GP_B2C_S p ((P.ID_NN_B2C_S p).indexOf q) + LN) =
      dataB (P.Index_Snd_Grid_B2C p q LN) := by
  have hidx : (P.ID_NN_B2C_S p).indexOf q < (P.ID_NN_B2C_S p).length :=
    List.indexOf_lt_length.mpr hq
  have hgetD : (P.ID_NN_B2C_S p).getD ((P.ID_NN_B2C_S p).indexOf q) 0 = q := by
    rw [List.getD_eq_getElem _ _ hidx]
    exact List.getElem_indexOf _
  have h := segFoldList_eq (P.GP_B2C_S p)
    (fun ID => P.Num_Snd_Grid_B2C p ((P.ID_NN_B2C_S p).getD ID 0))
    (fun ID LN =>
      dataB (P.Index_Snd_Grid_B2C p ((P.ID_NN_B2C_S p).getD ID 0) LN))
    (P.ID_NN_B2C_S p).length hgp (List.range (P.ID_NN_B2C_S p).length) init
    (List.nodup_range _) (fun x hx => List.mem_range.mp hx)
    ((P.ID_NN_B2C_S p).indexOf q) (List.mem_range.mpr hidx) LN
    (by
      show LN < P.Num_Snd_Grid_B2C p
        ((P.ID_NN_B2C_S p).getD ((P.ID_NN_B2C_S p).indexOf q) 0)
      rw [hgetD]
      exact hLN)
  unfold packSnd
  rw [h]
  show dataB (P.Index_Snd_Grid_B2C p
      ((P.ID_NN_B2C_S p).getD ((P.ID_NN_B2C_S p).indexOf q) 0) LN) =
    dataB (P.Index_Snd_Grid_B2C p q LN)
  rw [hgetD]

lemma rcvBuf_read (P : B2CPlan) (r : ℕ) (dataB initS : ℕ → ℕ → V)
    (initR : ℕ → V) (order : List ℕ)
    (hgp : ∀ ID < (P.ID_NN_B2C_R r).length,
      P.GP_B2C_R r (ID + 1) =
        P.GP_B2C_R r ID + P.Num_Rcv_Grid_B2C r ((P.ID_NN_B2C_R r).getD ID 0))
    (horder : order.Perm (remotePositions P r))
    (ID : ℕ) (hID : ID < (P.ID_NN_B2C_R r).length)
    (hne : (P.ID_NN_B2C_R r).getD ID 0 ≠ r) (LN : ℕ)
    (hLN : LN < P.Num_Rcv_Grid_B2C r ((P.ID_NN_B2C_R r).getD ID 0)) :
    rcvBuf P dataB initS r initR order (P.GP_B2C_R r ID + LN) =
      msgVal P dataB initS ((P.ID_NN_B2C_R r).getD ID 0) r LN := by
  have hmemrem : ID ∈ remotePositions P r := by
    unfold remotePositions
    rw [List.mem_filter]
    refine ⟨List.mem_range.mpr hID, ?_⟩
    simpa using hne
  have hnodup_rem : (remotePositions P r).Nodup :=
    List.Nodup.filter _ (List.nodup_range _)
  have hnodup : order.Nodup := (horder.nodup_iff).mpr hnodup_rem
  have hlt : ∀ x ∈ order, x < (P.ID_NN_B2C_R r).length := by
    intro x hx
    have hx2 := (horder.mem_iff).mp hx
    unfold remotePositions at hx2
    exact List.mem_range.mp (List.mem_filter.mp hx2).1
  have hmem : ID ∈ order := (horder.mem_iff).mpr hmemrem
  exact segFoldList_eq (P.GP_B2C_R r)
    (fun ID => P.Num_Rcv_Grid_B2C r ((P.ID_NN_B2C_R r).getD ID 0))
    (fun ID LN => msgVal P dataB initS ((P.ID_NN_B2C_R r).getD ID 0) r LN)
    (P.ID_NN_B2C_R r).length hgp order initR hnodup hlt ID hmem LN hLN

/-- Central delivery lemma: under a valid plan and any completion
order of the posted messages, the destination slot named by entry LN
of the receive index list for the partner at position ID holds exactly
the partition-B value named by entry LN of that partner's send index
list for r. -/
lemma delivered_value (P : B2CPlan) (hv : ValidPlan P)
    (dataB initS initR dataC0 : ℕ → ℕ → V) (order : ℕ → List ℕ)
    (horder : ∀ r' < P.numprocs, (order r').Perm (remotePositions P r'))
    (r : ℕ) (hr : r < P.numprocs)
    (ID : ℕ) (hID : ID < (P.ID_NN_B2C_R r).length)
    (LN : ℕ) (hLN : LN < P.Num_Rcv_Grid_B2C r ((P.ID_NN_B2C_R r).getD ID 0)) :
    Data_Grid_Copy_B2C_XiwenLi P dataB initS initR order dataC0 r
        (P.Index_Rcv_Grid_B2C r ((P.ID_NN_B2C_R r).getD ID 0) LN) =
      dataB ((P.ID_NN_B2C_R r).getD ID 0)
        (P.Index_Snd_Grid_B2C ((P.ID_NN_B2C_R r).getD ID 0) r LN) := by
  have hsmem : (P.ID_NN_B2C_R r).getD ID 0 ∈ P.ID_NN_B2C_R r := by
    rw [List.getD_eq_getElem _ _ hID]
    exact List.getElem_mem hID
  have hslt : (P.ID_NN_B2C_R r).getD ID 0 < P.numprocs :=
    hv.rcv_lt r hr _ hsmem
  have hsnd : r ∈ P.ID_NN_B2C_S ((P.ID_NN_B2C_R r).getD ID 0) :=
    (hv.pair_mem ((P.ID_NN_B2C_R r).getD ID 0) hslt r hr).mpr hsmem
  have hcnt : P.Num_Snd_Grid_B2C ((P.ID_NN_B2C_R r).getD ID 0) r =
      P.Num_Rcv_Grid_B2C r ((P.ID_NN_B2C_R r).getD ID 0) :=
    hv.counts _ hslt r hr
  unfold Data_Grid_Copy_B2C_XiwenLi
  rw [unpack_eq_writeSeq]
  have hkeys : ((unpackTrace P r (packSnd P (dataB r) r (initS r))
      (rcvBuf P dataB initS r (initR r) (order r))).map Prod.fst).Nodup := by
    rw [unpackTrace_keys]
    exact ((hv.rcv_perm r hr).nodup_iff).mpr (List.nodup_range _)
  have hpair : (P.Index_Rcv_Grid_B2C r ((P.ID_NN_B2C_R r).getD ID 0) LN,
      if (P.ID_NN_B2C_R r).getD ID 0 = r
      then packSnd P (dataB r) r (initS r) (P.GP_B2C_S r ID + LN)
      else rcvBuf P dataB initS r (initR r) (order r) (P.GP_B2C_R r ID + LN))
      ∈ unpackTrace P r (packSnd P (dataB r) r (initS r))
        (rcvBuf P dataB initS r (initR r) (order r)) := by
    unfold unpackTrace
    rw [List.mem_flatMap]
    exact ⟨ID, List.mem_range.mpr hID,
      List.mem_map.mpr ⟨LN, List.mem_range.mpr hLN, rfl⟩⟩
  rw [writeSeq_of_mem _ hkeys _ _ hpair (dataC0 r)]
  by_cases hsr : (P.ID_NN_B2C_R r).getD ID 0 = r
  · rw [if_pos hsr]
    have hrmem : r ∈ P.ID_NN_B2C_R r := by
      rw [hsr] at hsmem
      exact hsmem
    have hIDidx : ID = (P.ID_NN_B2C_R r).indexOf r := by
      have h2 : (P.ID_NN_B2C_R r).indexOf r < (P.ID_NN_B2C_R r).length :=
        List.indexOf_lt_length.mpr hrmem
      have h3 := List.getElem_indexOf h2
      have h4 : (P.ID_NN_B2C_R r)[ID] = r := by
        rw [← List.getD_eq_getElem _ 0 hID]
        exact hsr
      exact ((hv.rcv_nodup r hr).getElem_inj_iff).mp (h4.trans h3.symm)
    have hself := hv.self_pos r hr hrmem
    have hsnd2 : r ∈ P.ID_NN_B2C_S r := by
      rw [hsr] at hsnd
      exact hsnd
    have hLN2 : LN < P.Num_Snd_Grid_B2C r r := by
      rw [hsr] at hLN hcnt
      omega
    rw [hsr, hIDidx, hself]
    exact packSnd_read P r r (dataB r) (initS r)
      (fun ID' hID' => hv.gpS_succ r hr ID' hID') hsnd2 LN hLN2
  · rw [if_neg hsr]
    rw [rcvBuf_read P r dataB initS (initR r) (order r)
      (fun ID' hID' => hv.gpR_succ r hr ID' hID') (horder r hr) ID hID hsr
      LN hLN]
    unfold msgVal
    exact packSnd_read P _ r (dataB _) (initS _)
      (fun ID' hID' => hv.gpS_succ _ hslt ID' hID') hsnd LN
      (by rw [hcnt]; exact hLN)

lemma getD_indexOf_self (l : List ℕ) (q : ℕ) (hq : q ∈ l) :
    l.getD (l.indexOf q) 0 = q := by
  rw [List.getD_eq_getElem _ _ (List.indexOf_lt_length.mpr hq)]
  exact List.getElem_indexOf _

/-- Partner-level form of the delivery lemma: for every receive
partner s of r and every slot LN of s's list, destination slot
Index_Rcv_Grid_B2C[s][LN] of r's partition-C field ends up holding
dataB s (Index_Snd_Grid_B2C[s][r-list][LN]). -/
lemma delivered_partner (P : B2CPlan) (hv : ValidPlan P)
    (dataB initS initR dataC0 : ℕ → ℕ → V) (order : ℕ → List ℕ)
    (horder : ∀ r' < P.numprocs, (order r').Perm (remotePositions P r'))
    (r : ℕ) (hr : r < P.numprocs)
    (s : ℕ) (hs : s ∈ P.ID_NN_B2C_R r)
    (LN : ℕ) (hLN : LN < P.Num_Rcv_Grid_B2C r s) :
    Data_Grid_Copy_B2C_XiwenLi P dataB initS initR order dataC0 r
        (P.Index_Rcv_Grid_B2C r s LN) =
      dataB s (P.Index_Snd_Grid_B2C s r LN) := by
  have hidx : (P.ID_NN_B2C_R r).indexOf s < (P.ID_NN_B2C_R r).length :=
    List.indexOf_lt_length.mpr hs
  have hgetD := getD_indexOf_self (P.ID_NN_B2C_R r) s hs
  have h := delivered_value P hv dataB initS initR dataC0 order horder r hr
    ((P.ID_NN_B2C_R r).indexOf s) hidx LN (by rw [hgetD]; exact hLN)
  rw [hgetD] at h
  exact h

end Redistribution2

section RedistributionSums

variable {M : Type} [AddCommMonoid M]

lemma sum_list_flatMap (l : List ℕ) (f : ℕ → List M) :
    (l.flatMap f).sum = (l.map (fun a => (f a).sum)).sum := by
  rw [List.flatMap_def, List.sum_flatten, List.map_map]
  rfl

lemma map_getD_range {α : Type} (l : List α) (d : α) :
    (List.range l.length).map (fun i => l.getD i d) = l := by
  apply List.ext_getElem
  · simp
  · intro n h1 h2
    simp only [List.getElem_map, List.getElem_range]
    exact List.getD_eq_getElem l d h2

lemma sum_flatMap_map (l : List ℕ) (num : ℕ → ℕ) (f : ℕ → ℕ → M) :
    ((List.range l.length).flatMap (fun ID =>
        (List.range (num (l.getD ID 0))).map (fun LN => f (l.getD ID 0) LN))).sum
      = (l.map (fun q => ((List.range (num q)).map (fun LN => f q LN)).sum)).sum := by
  rw [sum_list_flatMap]
  conv_rhs => rw [← map_getD_range l 0, List.map_map]
  rfl

lemma sum_map_flatMap_map (l : List ℕ) (num : ℕ → ℕ) (idx : ℕ → ℕ → ℕ)
    (g : ℕ → M) :
    (((List.range l.length).flatMap (fun ID =>
        (List.range (num (l.getD ID 0))).map
          (fun LN => idx (l.getD ID 0) LN))).map g).sum
      = (l.map (fun q =>
          ((List.range (num q)).map (fun LN => g (idx q LN))).sum)).sum := by
  rw [List.map_flatMap]
  rw [List.flatMap_congr (fun ID _ => by
    rw [List.map_map]
    rfl : ∀ ID ∈ List.range l.length,
      (List.map g ((List.range (num (l.getD ID 0))).map
        (fun LN => idx (l.getD ID 0) LN))) =
      (List.range (num (l.getD ID 0))).map (fun LN => g (idx (l.getD ID 0) LN)))]
  exact sum_flatMap_map l num (fun q LN => g (idx q LN))

end RedistributionSums

section RedistributionClaims

variable {V : Type}

/-- C4: under a valid redistribution plan (each partition-B local
index in exactly one send list, each partition-C local index in
exactly one receive list, matching per-pair counts), and for any
message completion order, the sum over all processes of the
partition-C field after Data_Grid_Copy_B2C_XiwenLi equals the sum over
all processes of the partition-B field: no values are created,
dropped, or duplicated. -/
theorem redistribution_conservation {M : Type} [AddCommMonoid M]
    (P : B2CPlan) (hv : ValidPlan P)
    (dataB initS initR dataC0 : ℕ → ℕ → M) (order : ℕ → List ℕ)
    (horder : ∀ r < P.numprocs, (order r).Perm (remotePositions P r)) :
    ∑ r ∈ Finset.range P.numprocs, ∑ CN ∈ Finset.range (P.NumGridC r),
        Data_Grid_Copy_B2C_XiwenLi P dataB initS initR order dataC0 r CN =
      ∑ p ∈ Finset.range P.numprocs, ∑ BN ∈ Finset.range (P.NumGridB p),
        dataB p BN := by
  have hrecv : ∀ r ∈ Finset.range P.numprocs,
      ∑ CN ∈ Finset.range (P.NumGridC r),
        Data_Grid_Copy_B2C_XiwenLi P dataB initS initR order dataC0 r CN =
      ((P.ID_NN_B2C_R r).map (fun s =>
        ((List.range (P.Num_Rcv_Grid_B2C r s)).map
          (fun LN => dataB s (P.Index_Snd_Grid_B2C s r LN))).sum)).sum := by
    intro r hrmem
    have hr := Finset.mem_range.mp hrmem
    rw [← sum_map_range]
    have hperm := ((hv.rcv_perm r hr).map
      (Data_Grid_Copy_B2C_XiwenLi P dataB initS initR order dataC0 r)).sum_eq
    rw [← hperm]
    unfold rcvTargets
    have e1 := sum_map_flatMap_map (P.ID_NN_B2C_R r)
      (fun s => P.Num_Rcv_Grid_B2C r s)
      (fun s LN => P.Index_Rcv_Grid_B2C r s LN)
      (Data_Grid_Copy_B2C_XiwenLi P dataB initS initR order dataC0 r)
    rw [e1]
    apply congrArg List.sum
    apply List.map_congr_left
    intro s hs
    apply congrArg List.sum
    apply List.map_congr_left
    intro LN hLN
    exact delivered_partner P hv dataB initS initR dataC0 order horder r hr
      s hs LN (List.mem_range.mp hLN)
  have hsend : ∀ s ∈ Finset.range P.numprocs,
      ((P.ID_NN_B2C_S s).map (fun q =>
        ((List.range (P.Num_Snd_Grid_B2C s q)).map
          (fun LN => dataB s (P.Index_Snd_Grid_B2C s q LN))).sum)).sum =
      ∑ BN ∈ Finset.range (P.NumGridB s), dataB s BN := by
    intro s hsmem
    have hs := Finset.mem_range.mp hsmem
    rw [← sum_map_range]
    have hperm := ((hv.snd_perm s hs).map (dataB s)).sum_eq
    rw [← hperm]
    unfold sndSources
    have e1 := sum_map_flatMap_map (P.ID_NN_B2C_S s)
      (fun q => P.Num_Snd_Grid_B2C s q)
      (fun q LN => P.Index_Snd_Grid_B2C s q LN) (dataB s)
    rw [e1]
  calc ∑ r ∈ Finset.range P.numprocs, ∑ CN ∈ Finset.range (P.NumGridC r),
        Data_Grid_Copy_B2C_XiwenLi P dataB initS initR order dataC0 r CN
      = ∑ r ∈ Finset.range P.numprocs,
          ((P.ID_NN_B2C_R r).map (fun s =>
            ((List.range (P.Num_Rcv_Grid_B2C r s)).map
              (fun LN => dataB s (P.Index_Snd_Grid_B2C s r LN))).sum)).sum :=
        Finset.sum_congr rfl hrecv
    _ = ∑ r ∈ Finset.range P.numprocs, ∑ s ∈ Finset.range P.numprocs,
          (if s ∈ P.ID_NN_B2C_R r then
            ((List.range (P.Num_Snd_Grid_B2C s r)).map
              (fun LN => dataB s (P.Index_Snd_Grid_B2C s r LN))).sum
          else 0) := by
        apply Finset.sum_congr rfl
        intro r hrmem
        have hr := Finset.mem_range.mp hrmem
        rw [← List.sum_toFinset _ (hv.rcv_nodup r hr)]
        have hsub : (P.ID_NN_B2C_R r).toFinset ⊆ Finset.range P.numprocs := by
          intro x hx
          exact Finset.mem_range.mpr (hv.rcv_lt r hr x (List.mem_toFinset.mp hx))
        rw [← Finset.inter_eq_right.mpr hsub, ← Finset.sum_ite_mem]
        apply Finset.sum_congr rfl
        intro s hsmem
        have hslt := Finset.mem_range.mp hsmem
        by_cases hmem : s ∈ P.ID_NN_B2C_R r
        · rw [if_pos (List.mem_toFinset.mpr hmem), if_pos hmem,
            hv.counts s hslt r hr]
        · rw [if_neg (fun hc => hmem (List.mem_toFinset.mp hc)), if_neg hmem]
    _ = ∑ s ∈ Finset.range P.numprocs, ∑ r ∈ Finset.range P.numprocs,
          (if s ∈ P.ID_NN_B2C_R r then
            ((List.range (P.Num_Snd_Grid_B2C s r)).map
              (fun LN => dataB s (P.Index_Snd_Grid_B2C s r LN))).sum
          else 0) := Finset.sum_comm
    _ = ∑ s ∈ Finset.range P.numprocs, ∑ r ∈ Finset.range P.numprocs,
          (if r ∈ P.ID_NN_B2C_S s then
            ((List.range (P.Num_Snd_Grid_B2C s r)).map
              (fun LN => dataB s (P.Index_Snd_Grid_B2C s r LN))).sum
          else 0) := by
        apply Finset.sum_congr rfl
        intro s hsmem
        apply Finset.sum_congr rfl
        intro r hrmem
        have hs := Finset.mem_range.mp hsmem
        have hr := Finset.mem_range.mp hrmem
        by_cases h1 : s ∈ P.ID_NN_B2C_R r
        · rw [if_pos h1, if_pos ((hv.pair_mem s hs r hr).mpr h1)]
        · rw [if_neg h1, if_neg (fun hc => h1 ((hv.pair_mem s hs r hr).mp hc))]
    _ = ∑ s ∈ Finset.range P.numprocs,
          ((P.ID_NN_B2C_S s).map (fun q =>
            ((List.range (P.Num_Snd_Grid_B2C s q)).map
              (fun LN => dataB s (P.Index_Snd_Grid_B2C s q LN))).sum)).sum := by
        apply Finset.sum_congr rfl
        intro s hsmem
        have hs := Finset.mem_range.mp hsmem
        rw [← List.sum_toFinset _ (hv.snd_nodup s hs)]
        have hsub : (P.ID_NN_B2C_S s).toFinset ⊆ Finset.range P.numprocs := by
          intro x hx
          exact Finset.mem_range.mpr (hv.snd_lt s hs x (List.mem_toFinset.mp hx))
        rw [← Finset.inter_eq_right.mpr hsub, ← Finset.sum_ite_mem]
        apply Finset.sum_congr rfl
        intro r hrmem
        by_cases hmem : r ∈ P.ID_NN_B2C_S s
        · rw [if_pos (List.mem_toFinset.mpr hmem), if_pos hmem]
        · rw [if_neg (fun hc => hmem (List.mem_toFinset.mp hc)), if_neg hmem]
    _ = ∑ p ∈ Finset.range P.numprocs, ∑ BN ∈ Finset.range (P.NumGridB p),
          dataB p BN := Finset.sum_congr rfl hsend

/-- C5: during one redistribution call under a valid plan, every
partition-C destination slot named by some receive index list is
written exactly once by the unpack loop, its value comes from exactly
one source grid point (entry LN of the unique partner's send list),
and the resulting partition-C field does not depend on the order in
which the posted messages complete. -/
theorem redistribution_single_writer (P : B2CPlan) (hv : ValidPlan P)
    (dataB initS initR dataC0 : ℕ → ℕ → V) (order : ℕ → List ℕ)
    (horder : ∀ r' < P.numprocs, (order r').Perm (remotePositions P r'))
    (r : ℕ) (hr : r < P.numprocs) :
    (∀ CN ∈ rcvTargets P r,
      ((unpackTrace P r (packSnd P (dataB r) r (initS r))
        (rcvBuf P dataB initS r (initR r) (order r))).map Prod.fst).count CN
        = 1) ∧
    (∀ s ∈ P.ID_NN_B2C_R r, ∀ LN < P.Num_Rcv_Grid_B2C r s,
      Data_Grid_Copy_B2C_XiwenLi P dataB initS initR order dataC0 r
          (P.Index_Rcv_Grid_B2C r s LN) =
        dataB s (P.Index_Snd_Grid_B2C s r LN)) ∧
    (∀ order2 : ℕ → List ℕ,
      (∀ r' < P.numprocs, (order2 r').Perm (remotePositions P r')) →
      Data_Grid_Copy_B2C_XiwenLi P dataB initS initR order dataC0 r =
        Data_Grid_Copy_B2C_XiwenLi P dataB initS initR order2 dataC0 r) := by
  have hkeysnd : ((unpackTrace P r (packSnd P (dataB r) r (initS r))
      (rcvBuf P dataB initS r (initR r) (order r))).map Prod.fst).Nodup := by
    rw [unpackTrace_keys]
    exact ((hv.rcv_perm r hr).nodup_iff).mpr (List.nodup_range _)
  refine ⟨?_, ?_, ?_⟩
  · intro CN hCN
    refine count_eq_one_of_nodup_mem hkeysnd ?_
    rw [unpackTrace_keys]
    exact hCN
  · intro s hs LN hLN
    exact delivered_partner P hv dataB initS initR dataC0 order horder r hr
      s hs LN hLN
  · intro order2 horder2
    funext CN
    by_cases hCN : CN ∈ rcvTargets P r
    · unfold rcvTargets at hCN
      rw [List.mem_flatMap] at hCN
      obtain ⟨ID, hIDmem, hinner⟩ := hCN
      rw [List.mem_map] at hinner
      obtain ⟨LN, hLNmem, hCNeq⟩ := hinner
      subst hCNeq
      rw [delivered_value P hv dataB initS initR dataC0 order horder r hr ID
          (List.mem_range.mp hIDmem) LN (List.mem_range.mp hLNmem),
        delivered_value P hv dataB initS initR dataC0 order2 horder2 r hr ID
          (List.mem_range.mp hIDmem) LN (List.mem_range.mp hLNmem)]
    · unfold Data_Grid_Copy_B2C_XiwenLi
      rw [unpack_eq_writeSeq, unpack_eq_writeSeq]
      rw [writeSeq_of_not_mem _ CN (by rw [unpackTrace_keys]; exact hCN)
        (dataC0 r)]
      rw [writeSeq_of_not_mem _ CN (by rw [unpackTrace_keys]; exact hCN)
        (dataC0 r)]

/-- C6: the self-pair posts no network operation (the calling rank
never appears among the partners for which MPI_Isend or MPI_Irecv is
issued), yet under a valid plan every grid value of the self-pair's
send index list is still copied into its partition-C destination slot
data_C[Index_Rcv_Grid_B2C[myid][LN]]. -/
theorem redistribution_self_pair (P : B2CPlan) (hv : ValidPlan P)
    (dataB initS initR dataC0 : ℕ → ℕ → V) (order : ℕ → List ℕ)
    (horder : ∀ r' < P.numprocs, (order r').Perm (remotePositions P r'))
    (r : ℕ) (hr : r < P.numprocs) :
    r ∉ postedSndIDs P r ∧ r ∉ postedRcvIDs P r ∧
    (r ∈ P.ID_NN_B2C_R r → ∀ LN < P.Num_Rcv_Grid_B2C r r,
      Data_Grid_Copy_B2C_XiwenLi P dataB initS initR order dataC0 r
          (P.Index_Rcv_Grid_B2C r r LN) =
        dataB r (P.Index_Snd_Grid_B2C r r LN)) := by
  refine ⟨?_, ?_, ?_⟩
  · intro hc
    have h2 := (List.mem_filter.mp hc).2
    simp at h2
  · intro hc
    have h2 := (List.mem_filter.mp hc).2
    simp at h2
  · intro hself LN hLN
    exact delivered_partner P hv dataB initS initR dataC0 order horder r hr
      r hself LN hLN

/-- C7 (amended): Data_Grid_Copy_B2C_XiwenLi performs no plan/field
size validation whatsoever: its result does not depend on the recorded
field lengths of either partition, so a mismatch between the plan's
buffer totals and the actual field length cannot be detected, and data
is moved unconditionally. -/
theorem redistribution_no_size_validation (P : B2CPlan) (fB fC : ℕ → ℕ)
    (dataB initS initR dataC0 : ℕ → ℕ → V) (order : ℕ → List ℕ) (r : ℕ) :
    Data_Grid_Copy_B2C_XiwenLi { P with NumGridB := fB, NumGridC := fC }
        dataB initS initR order dataC0 r =
      Data_Grid_Copy_B2C_XiwenLi P dataB initS initR order dataC0 r := rfl

end RedistributionClaims

/-- Concrete plan with a plan/field size mismatch: the send side packs
one value (its buffer total is 1) while the recorded partition-B field
length is 0. -/
def planBad : B2CPlan where
  numprocs := 1
  ID_NN_B2C_S := fun _ => [0]
  ID_NN_B2C_R := fun _ => [0]
  GP_B2C_S := fun _ ID => ID
  GP_B2C_R := fun _ ID => ID
  Num_Snd_Grid_B2C := fun _ _ => 1
  Num_Rcv_Grid_B2C := fun _ _ => 1
  Index_Snd_Grid_B2C := fun _ _ _ => 0
  Index_Rcv_Grid_B2C := fun _ _ _ => 0
  NumGridB := fun _ => 0
  NumGridC := fun _ => 0

/-- C7 counterexample: on planBad the buffer sizing recorded in the
plan disagrees with the recorded field length, yet the redistribution
does not fail and moves data anyway: the partition-C slot 0 changes
from 0 to 7, so no detection happens before data is moved (there is no
failure path at all in the routine). -/
theorem redistribution_mismatch_not_detected :
    planBad.GP_B2C_S 0 (planBad.ID_NN_B2C_S 0).length ≠ planBad.NumGridB 0 ∧
    Data_Grid_Copy_B2C_XiwenLi planBad (fun _ _ => (7 : ℤ)) (fun _ _ => 0)
        (fun _ _ => 0) (fun _ => []) (fun _ _ => 0) 0 0 = 7 ∧
    (7 : ℤ) ≠ 0 := by
  decide

/-- Concrete valid one-process plan over two grid points, with a
nontrivial receive permutation. -/
def planOne : B2CPlan where
  numprocs := 1
  ID_NN_B2C_S := fun _ => [0]
  ID_NN_B2C_R := fun _ => [0]
  GP_B2C_S := fun _ ID => 2 * ID
  GP_B2C_R := fun _ ID => 2 * ID
  Num_Snd_Grid_B2C := fun _ _ => 2
  Num_Rcv_Grid_B2C := fun _ _ => 2
  Index_Snd_Grid_B2C := fun _ _ LN => LN
  Index_Rcv_Grid_B2C := fun _ _ LN => 1 - LN
  NumGridB := fun _ => 2
  NumGridC := fun _ => 2

lemma planOne_valid : ValidPlan planOne := by
  constructor <;> decide

/-- Concrete partition-B field over ℤ. -/
def wDataB : ℕ → ℕ → ℤ := fun _ BN => (BN : ℤ) + 5

/-- All-zero auxiliary field over ℤ. -/
def wZero : ℕ → ℕ → ℤ := fun _ _ => 0

/-- Empty completion order (planOne has no remote partner). -/
def wOrder : ℕ → List ℕ := fun _ => []

/-- C4 witness: on the concrete valid plan the partition-C sum equals
the partition-B sum. -/
theorem redistribution_conservation_witness :
    ∑ r ∈ Finset.range planOne.numprocs,
        ∑ CN ∈ Finset.range (planOne.NumGridC r),
        Data_Grid_Copy_B2C_XiwenLi planOne wDataB wZero wZero wOrder wZero
          r CN =
      ∑ p ∈ Finset.range planOne.numprocs,
        ∑ BN ∈ Finset.range (planOne.NumGridB p), wDataB p BN :=
  redistribution_conservation planOne planOne_valid wDataB wZero wZero wZero
    wOrder (by decide)

/-- C5 witness: on the concrete valid plan, destination slot
Index_Rcv[0][1] holds the partition-B value Index_Snd[0][1]. -/
theorem redistribution_single_writer_witness :
    Data_Grid_Copy_B2C_XiwenLi planOne wDataB wZero wZero wOrder wZero 0
        (planOne.Index_Rcv_Grid_B2C 0 0 1) =
      wDataB 0 (planOne.Index_Snd_Grid_B2C 0 0 1) :=
  (redistribution_single_writer planOne planOne_valid wDataB wZero wZero
      wZero wOrder (by decide) 0 (by decide)).2.1 0 (by decide) 1 (by decide)

/-- C6 witness: on the concrete valid plan the self-pair value of slot
0 is copied without a posted message. -/
theorem redistribution_self_pair_witness :
    Data_Grid_Copy_B2C_XiwenLi planOne wDataB wZero wZero wOrder wZero 0
        (planOne.Index_Rcv_Grid_B2C 0 0 0) =
      wDataB 0 (planOne.Index_Snd_Grid_B2C 0 0 0) :=
  (redistribution_self_pair planOne planOne_valid wDataB wZero wZero wZero
      wOrder (by decide) 0 (by decide)).2.2 (by decide) 0 (by decide)

end OpenMX
